import Mathlib

/-!
Verification development for the agent-reviews PR comment tooling
(`lib/comments.js` / `bin/agent-reviews.js`).

The JavaScript source is shallowly embedded: strings are `List Char` /
`String`, the regex rewrites of `cleanBody` are modelled by explicit
scanning functions with the exact leftmost-match / non-greedy semantics of
the source patterns, timestamps are `Int` (epoch milliseconds, the value of
`new Date(s).getTime()`), and the stable `Array.prototype.sort` is modelled
by a stable insertion sort with the same comparator.  Fallible operations
return `Except`, and the watch loop is a fuel-indexed step function over an
environment that supplies the result of each fetch.
-/

namespace AgentReviews

/-- The whitespace class used by JavaScript `\s` and `String.trim`
(restricted to the ASCII range, which is all the source's patterns and
inputs exercise). -/
def jsWhite (c : Char) : Bool :=
  c = ' ' || c = '\t' || c = '\n' || c = '\r' || c = '\x0b' || c = '\x0c'

/-- ASCII lower-casing, the case folding performed by the `i` regex flag on
the ASCII-only patterns of `cleanBody`. -/
def lowerChar (c : Char) : Char :=
  if 'A' ≤ c ∧ c ≤ 'Z' then Char.ofNat (c.toNat + 32) else c

/-- Case-insensitive literal match: `pat` (already lower-case) matched at
the head of `l`. -/
def ciPrefixOf : List Char → List Char → Bool
  | [], _ => true
  | _ :: _, [] => false
  | p :: ps, c :: cs => lowerChar c = p && ciPrefixOf ps cs

/-- Drop a case-insensitive literal from the head of `l`, or fail. -/
def dropPrefixCI (pat : List Char) (l : List Char) : Option (List Char) :=
  if ciPrefixOf pat l then some (l.drop pat.length) else none

/-- Greedy `\s*`: drop leading whitespace. -/
def dropWs (l : List Char) : List Char := l.dropWhile jsWhite

/-- `[\s\S]*?term` (case-sensitive): drop everything up to and including
the earliest occurrence of the terminator `term`; fail if there is none. -/
def dropThrough (term : List Char) : List Char → Option (List Char)
  | [] => if term.isEmpty then some [] else none
  | c :: cs =>
    if term.isPrefixOf (c :: cs) then some ((c :: cs).drop term.length)
    else dropThrough term cs

/-- `[\s\S]*?term` with the `i` flag: as `dropThrough` but case-insensitive
(`term` given in lower case). -/
def dropThroughCI (term : List Char) : List Char → Option (List Char)
  | [] => if term.isEmpty then some [] else none
  | c :: cs =>
    if ciPrefixOf term (c :: cs) then some ((c :: cs).drop term.length)
    else dropThroughCI term cs

/-- Does the case-sensitive literal `pat` occur anywhere in `l`?
(JavaScript `String.prototype.includes`.) -/
def containsSeq (pat : List Char) : List Char → Bool
  | [] => pat.isEmpty
  | c :: cs => pat.isPrefixOf (c :: cs) || containsSeq pat cs

/-- `/<!--[\s\S]*?-->/` matched at the head of `l`: on success, returns the
rest of the input after the match. -/
def commentMatchAt (l : List Char) : Option (List Char) :=
  if "<!--".toList.isPrefixOf l then dropThrough "-->".toList (l.drop 4)
  else none

/-- `/<details>\s*<summary>\s*Additional Locations[\s\S]*?<\/details>/i`
matched at the head of `l`.  The greedy `\s*` runs are exact because the
literals that follow them begin with non-whitespace. -/
def detailsMatchAt (l : List Char) : Option (List Char) := do
  let l ← dropPrefixCI "<details>".toList l
  let l ← dropPrefixCI "<summary>".toList (dropWs l)
  let l ← dropPrefixCI "additional locations".toList (dropWs l)
  dropThroughCI "</details>".toList l

/-- The backtracking tail `[^>]*cursor\.com` of the `<p>` pattern: the
greedy `[^>]*` selects the LAST occurrence of `cursor.com` that starts
inside the maximal run of non-`>` characters; returns the rest after that
occurrence.  (Any later `</p>` terminator lies at or after every candidate
occurrence's end, so choosing the last candidate is exact.) -/
def lastCursorRest : List Char → Option (List Char)
  | [] => none
  | c :: cs =>
    if c = '>' then none
    else
      match lastCursorRest cs with
      | some r => some r
      | none =>
        if ciPrefixOf "cursor.com".toList (c :: cs) then
          some ((c :: cs).drop 10)
        else none

/-- `/<p>\s*<a [^>]*cursor\.com[\s\S]*?<\/p>/i` matched at the head of `l`. -/
def pMatchAt (l : List Char) : Option (List Char) := do
  let l ← dropPrefixCI "<p>".toList l
  let l ← dropPrefixCI "<a ".toList (dropWs l)
  let l ← lastCursorRest l
  dropThroughCI "</p>".toList l

/-- `String.prototype.replace(re, "")` with a global regex: scan left to
right; at each position try the match, remove it and continue after its
end, otherwise keep the character.  The fuel argument is always called
with the input length, which suffices because every match consumes at
least one character. -/
def removeAllGo (m : List Char → Option (List Char)) : Nat → List Char → List Char
  | _, [] => []
  | 0, l => l
  | n + 1, c :: cs =>
    match m (c :: cs) with
    | some rest => removeAllGo m n rest
    | none => c :: removeAllGo m n cs

/-- Remove every (leftmost, non-overlapping) match of `m` from `l`. -/
def removeAll (m : List Char → Option (List Char)) (l : List Char) : List Char :=
  removeAllGo m l.length l

/-- `m` matches at no position of `l` ("the text contains no occurrence
of the pattern"). -/
def matchNowhere (m : List Char → Option (List Char)) : List Char → Bool
  | [] => (m []).isNone
  | c :: cs => (m (c :: cs)).isNone && matchNowhere m cs

/-- The pattern `\n{3,}` is present exactly when three consecutive
newlines occur somewhere. -/
def tripleNewline : List Char := ['\n', '\n', '\n']

/-- `replace(/\n{3,}/g, "\n\n")`: collapse each maximal run of three or
more newlines to exactly two.  `pending` counts the newlines of the run
currently being read. -/
def collapseGo : Nat → List Char → List Char
  | pending, [] => if pending ≥ 3 then ['\n', '\n'] else List.replicate pending '\n'
  | pending, c :: cs =>
    if c = '\n' then collapseGo (pending + 1) cs
    else
      (if pending ≥ 3 then ['\n', '\n'] else List.replicate pending '\n')
        ++ c :: collapseGo 0 cs

/-- Left side of JavaScript `String.prototype.trim` (ASCII whitespace). -/
def trimLeftL (l : List Char) : List Char := l.dropWhile jsWhite

/-- Right side of `trim`: remove the maximal whitespace run at the end. -/
def trimRightL : List Char → List Char
  | [] => []
  | c :: cs =>
    let r := trimRightL cs
    if r.isEmpty && jsWhite c then [] else c :: r

/-- JavaScript `String.prototype.trim`. -/
def trimL (l : List Char) : List Char := trimRightL (trimLeftL l)

/-- `cleanBody` from `lib/comments.js`, on character lists: strip HTML
comments, "Additional Locations" `<details>` blocks and cursor.com `<p>`
blocks, collapse newline runs, and trim.  The falsy short-circuit of the
source (`if (!body) return body`) is the empty-string case. -/
def cleanBodyL (body : List Char) : List Char :=
  if body = [] then body
  else
    let c1 := removeAll commentMatchAt body
    let c2 := removeAll detailsMatchAt c1
    let c3 := removeAll pMatchAt c2
    let c4 := collapseGo 0 c3
    trimL c4

/-- `cleanBody` on `String`. -/
def cleanBody (body : String) : String := String.mk (cleanBodyL body.data)

/-- JavaScript `String.prototype.trim` on `String`. -/
def jsTrim (s : String) : String := String.mk (trimL s.data)

/-- `DEFAULT_META_FILTERS` from `lib/comments.js`: predicates matching
auto-generated status updates.  A missing `user.login` of the source is
modelled as the empty string (it compares unequal to every bot name, as
`undefined` does under `===`). -/
def DEFAULT_META_FILTERS : List (String → String → Bool) :=
  [ fun user body => user = "vercel[bot]" && body.startsWith "[vc]:",
    fun user body => user = "supabase[bot]" && body.startsWith "[supa]:",
    fun user body =>
      user = "cursor[bot]" && body.startsWith "Cursor Bugbot has reviewed your changes" ]

/-- `isMetaComment` from `lib/comments.js`.  A falsy body (empty string,
modelling also `null`/`undefined`) is never meta. -/
def isMetaComment (user : String) (body : String)
    (metaFilters : List (String → String → Bool)) : Bool :=
  if body = "" then false
  else metaFilters.any fun f => f user body

/-- `isBot` from `lib/comments.js`: suffix `[bot]`, known display names, or
the substring `bot` anywhere (case-sensitive). -/
def isBot (username : String) : Bool :=
  if username = "" then false
  else
    username.endsWith "[bot]" || username = "Copilot"
      || containsSeq "bot".toList username.data || username = "github-actions"

/-- A GitHub pull-request review comment (inline code comment), the fields
`processComments` reads.  `created_at`/`updated_at` are the parsed time
values (`new Date(s).getTime()`). -/
structure ReviewComment where
  id : Nat
  in_reply_to_id : Option Nat
  user : String
  body : String
  path : Option String
  line : Option Nat
  original_line : Option Nat
  diff_hunk : Option String
  created_at : Int
  updated_at : Int
  html_url : String
deriving DecidableEq

/-- A GitHub issue comment (general PR comment). -/
structure IssueComment where
  id : Nat
  user : String
  body : String
  created_at : Int
  updated_at : Int
  html_url : String
deriving DecidableEq

/-- A GitHub review (verdict).  A `null` body is modelled as the empty
string, which is falsy in every check the source performs on it. -/
structure Review where
  id : Nat
  user : String
  body : String
  state : String
  submitted_at : Int
  html_url : String
deriving DecidableEq

/-- The three raw collections returned by `fetchPRComments`. -/
structure CommentData where
  reviewComments : List ReviewComment
  issueComments : List IssueComment
  reviews : List Review
deriving DecidableEq

/-- A reply record pushed into the replies map. -/
structure Reply where
  id : Nat
  user : String
  body : String
  createdAt : Int
  isBot : Bool
deriving DecidableEq

/-- A normalized comment, the shape pushed into `processed`.  The `state`
field is present only on review entities (`none` elsewhere, where the
source object simply lacks the property). -/
structure ProcessedComment where
  id : Nat
  type : String
  user : String
  isBot : Bool
  path : Option String
  line : Option Nat
  diffHunk : Option String
  body : String
  state : Option String
  createdAt : Int
  updatedAt : Int
  url : String
  replies : List Reply
  hasHumanReply : Bool
  hasAnyReply : Bool
  isResolved : Bool
deriving DecidableEq

/-- JavaScript truthiness of an optional number field
(`if (comment.in_reply_to_id)`): absent and `0` are falsy. -/
def jsTruthyNat : Option Nat → Bool
  | some n => !(n == 0)
  | none => false

/-- JavaScript `a || b` on optional numbers: `comment.line ||
comment.original_line` (`0` is falsy). -/
def jsOrOptNat : Option Nat → Option Nat → Option Nat
  | some n, b => if n = 0 then b else some n
  | none, b => b

/-- JavaScript `s || null` on an optional string (`""` is falsy). -/
def jsOrNull : Option String → Option String
  | some s => if s = "" then none else some s
  | none => none

/-- The reply record built from a review comment carrying
`in_reply_to_id`. -/
def mkReply (c : ReviewComment) : Reply :=
  { id := c.id
    user := c.user
    body := cleanBody c.body
    createdAt := c.created_at
    isBot := isBot c.user }

/-- The replies map of `processComments`, as a lookup: the replies filed
under parent id `pid`, in input order (the order the source pushes them).
Only comments whose `in_reply_to_id` is truthy enter the map. -/
def repliesFor (reviewComments : List ReviewComment) (pid : Nat) : List Reply :=
  (reviewComments.filter fun c =>
    jsTruthyNat c.in_reply_to_id && c.in_reply_to_id = some pid).map mkReply

/-- The entity pushed for a thread-root review comment. -/
def reviewCommentEntity (reviewComments : List ReviewComment)
    (c : ReviewComment) : ProcessedComment :=
  let replies := repliesFor reviewComments c.id
  { id := c.id
    type := "review_comment"
    user := c.user
    isBot := isBot c.user
    path := c.path
    line := jsOrOptNat c.line c.original_line
    diffHunk := jsOrNull c.diff_hunk
    body := cleanBody c.body
    state := none
    createdAt := c.created_at
    updatedAt := c.updated_at
    url := c.html_url
    replies := replies
    hasHumanReply := replies.any fun r => !r.isBot
    hasAnyReply := !replies.isEmpty
    isResolved := false }

/-- The entity pushed for an issue comment. -/
def issueCommentEntity (c : IssueComment) : ProcessedComment :=
  { id := c.id
    type := "issue_comment"
    user := c.user
    isBot := isBot c.user
    path := none
    line := none
    diffHunk := none
    body := cleanBody c.body
    state := none
    createdAt := c.created_at
    updatedAt := c.updated_at
    url := c.html_url
    replies := []
    hasHumanReply := false
    hasAnyReply := false
    isResolved := false }

/-- The entity pushed for a review with content. -/
def reviewEntity (r : Review) : ProcessedComment :=
  { id := r.id
    type := "review"
    user := r.user
    isBot := isBot r.user
    path := none
    line := none
    diffHunk := none
    body := cleanBody r.body
    state := some r.state
    createdAt := r.submitted_at
    updatedAt := r.submitted_at
    url := r.html_url
    replies := []
    hasHumanReply := false
    hasAnyReply := false
    isResolved := r.state = "APPROVED" || r.state = "DISMISSED" }

/-- The comparator relation of the final sort: `processed.sort((a, b) =>
new Date(b.createdAt).getTime() - new Date(a.createdAt).getTime())`, i.e.
newest first.  `a` may precede `b` exactly when the comparator is `≤ 0`. -/
def byNewest (a b : ProcessedComment) : Prop := b.createdAt ≤ a.createdAt

instance : DecidableRel byNewest :=
  fun a b => inferInstanceAs (Decidable (b.createdAt ≤ a.createdAt))

instance : IsTotal ProcessedComment byNewest :=
  ⟨fun a b => Int.le_total b.createdAt a.createdAt⟩

instance : IsTrans ProcessedComment byNewest :=
  ⟨fun _ _ _ h1 h2 => le_trans h2 h1⟩

/-- `processComments` from `lib/comments.js`: filter and map each of the
three collections (the `for`/`continue`/`push` loops), concatenate in
source order (inline roots, then issue comments, then reviews), and sort
newest-first.  `Array.prototype.sort` is stable; a stable insertion sort
with the same comparator produces the identical ordering. -/
def processComments (data : CommentData)
    (metaFilters : List (String → String → Bool)) : List ProcessedComment :=
  let roots :=
    (data.reviewComments.filter fun c =>
        !jsTruthyNat c.in_reply_to_id
          && !isMetaComment c.user c.body metaFilters).map
      (reviewCommentEntity data.reviewComments)
  let issues :=
    (data.issueComments.filter fun c =>
        !isMetaComment c.user c.body metaFilters).map issueCommentEntity
  let revs :=
    (data.reviews.filter fun r =>
        !isMetaComment r.user r.body metaFilters && !(jsTrim r.body = "")).map
      reviewEntity
  List.insertionSort byNewest (roots ++ issues ++ revs)

/-- The options record consumed by `filterComments` (`--bots-only`,
`--humans-only`, `--unresolved`/`--unanswered`). -/
structure FilterOptions where
  botsOnly : Bool
  humansOnly : Bool
  filter : Option String
deriving DecidableEq

/-- `filterComments` from `lib/comments.js`, value level: the chain of
`Array.prototype.filter` steps. -/
def filterComments (comments : List ProcessedComment)
    (options : FilterOptions) : List ProcessedComment :=
  let f1 :=
    if options.botsOnly then comments.filter fun c => c.isBot
    else if options.humansOnly then comments.filter fun c => !c.isBot
    else comments
  if options.filter = some "unresolved" then
    f1.filter fun c => !(c.isResolved || c.hasHumanReply)
  else if options.filter = some "unanswered" then
    f1.filter fun c => !c.hasAnyReply
  else f1

/-- A heap of allocated arrays, for observing which steps of
`filterComments` allocate.  References are indices; JavaScript
`Array.prototype.filter` always allocates a fresh array, while
`let filtered = comments; ...; return filtered` without any filter step
returns the argument array itself. -/
abbrev Heap : Type := List (List ProcessedComment)

/-- Dereference. -/
def Heap.read (h : Heap) (r : Nat) : List ProcessedComment :=
  List.getD h r []

/-- Allocate the result of one `.filter(p)` call on the array at `r`. -/
def heapFilter (h : Heap) (r : Nat) (p : ProcessedComment → Bool) : Heap × Nat :=
  (List.append h [(Heap.read h r).filter p], List.length h)

/-- `filterComments` with reference semantics: the same control flow as
the source, tracking which arrays are freshly allocated.  Returns the new
heap and the reference handed back to the caller. -/
def filterCommentsRef (h : Heap) (comments : Nat)
    (options : FilterOptions) : Heap × Nat :=
  let s1 :=
    if options.botsOnly then heapFilter h comments fun c => c.isBot
    else if options.humansOnly then heapFilter h comments fun c => !c.isBot
    else (h, comments)
  if options.filter = some "unresolved" then
    heapFilter s1.1 s1.2 fun c => !(c.isResolved || c.hasHumanReply)
  else if options.filter = some "unanswered" then
    heapFilter s1.1 s1.2 fun c => !c.hasAnyReply
  else s1

/-- An HTTP response as `fetchAllPages` consumes it: `ok`, `status`, the
JSON array of items, and the raw `Link` response header. -/
structure HttpResponse (α : Type) where
  ok : Bool
  status : Nat
  json : List α
  linkHeader : Option String
deriving DecidableEq

/-- The leftmost match of `/<([^>]+)>;\s*rel="next"/` in a `Link` header,
returning capture group 1 (the next URL).  At a `<`, the greedy `[^>]+`
is forced up to the closing `>`, so scanning positions left to right is
exact. -/
def nextLinkMatch : List Char → Option (List Char)
  | [] => none
  | c :: cs =>
    if c = '<' then
      let inside := cs.takeWhile fun d => d ≠ '>'
      match cs.dropWhile fun d => d ≠ '>' with
      | '>' :: ';' :: rest =>
        if inside.length ≥ 1
            && "rel=\"next\"".toList.isPrefixOf (rest.dropWhile jsWhite) then
          some inside
        else nextLinkMatch cs
      | _ => nextLinkMatch cs
    else nextLinkMatch cs

/-- `linkHeader.match(...)` applied to an optional header: the next-page
URL, if any. -/
def getNextUrl (link : Option String) : Option String :=
  match link with
  | none => none
  | some h => (nextLinkMatch h.data).map fun cs => String.mk cs

/-- The failure message thrown by `fetchAllPages`:
`` `API request failed: ${response.status}` ``. -/
def apiFailMsg (status : Nat) : String :=
  "API request failed: " ++ toString status

/-- The `while (nextUrl)` loop of `fetchAllPages`.  `fetch` is the
injected HTTP transport (a deterministic response per URL), `results` the
accumulator; fuel bounds the number of iterations, `none` meaning the
chain outran the fuel (the theorems quantify over sufficient fuel). -/
def fetchAllPagesGo (fetch : String → HttpResponse α) :
    Nat → Option String → List α → Option (Except String (List α))
  | _, none, results => some (.ok results)
  | 0, some _, _ => none
  | fuel + 1, some url, results =>
    let r := fetch url
    if r.ok then fetchAllPagesGo fetch fuel (getNextUrl r.linkHeader) (results ++ r.json)
    else some (.error (apiFailMsg r.status))

/-- `fetchAllPages` from `lib/comments.js`. -/
def fetchAllPages (fetch : String → HttpResponse α) (url : String)
    (fuel : Nat) : Option (Except String (List α)) :=
  fetchAllPagesGo fetch fuel (some url) []

/-- The chain of `(url, response)` pairs the loop requests, in order
(ending at the first failure or at a page without a `next` link). -/
def fetchTrace (fetch : String → HttpResponse α) :
    Nat → Option String → List (String × HttpResponse α)
  | _, none => []
  | 0, some _ => []
  | fuel + 1, some url =>
    let r := fetch url
    if r.ok then (url, r) :: fetchTrace fetch fuel (getNextUrl r.linkHeader)
    else [(url, r)]

/-- A request issued by `replyToComment`: URL, method, and the value of
the `body` field of the JSON payload (the JSON envelope
`JSON.stringify({ body })` is abstracted to its single field). -/
structure ReplyRequest where
  url : String
  method : String
  payload : String
deriving DecidableEq

/-- The created comment entity, as the caller consumes it
(`result.html_url` is the permalink). -/
structure ReplyEntity where
  html_url : String
deriving DecidableEq

/-- A response to a reply request: `ok`, `status`, the parsed JSON entity
(`response.json()`), and the raw text (`response.text()`, read only on
failure). -/
structure ReplyResponse where
  ok : Bool
  status : Nat
  json : ReplyEntity
  text : String
deriving DecidableEq

/-- The first request of `replyToComment`: the inline thread-reply
endpoint. -/
def inlineReplyRequest (owner repo : String) (prNumber : Nat)
    (commentId : String) (message : String) : ReplyRequest :=
  { url := "https://api.github.com/repos/" ++ owner ++ "/" ++ repo
      ++ "/pulls/" ++ toString prNumber ++ "/comments/" ++ commentId ++ "/replies"
    method := "POST"
    payload := message }

/-- The fallback request of `replyToComment`: a general issue comment
whose body is prefixed with a reference to the original comment id. -/
def issueCommentRequest (owner repo : String) (prNumber : Nat)
    (commentId : String) (message : String) : ReplyRequest :=
  { url := "https://api.github.com/repos/" ++ owner ++ "/" ++ repo
      ++ "/issues/" ++ toString prNumber ++ "/comments"
    method := "POST"
    payload := "> Re: comment " ++ commentId ++ "\n\n" ++ message }

/-- The failure thrown when both endpoints fail:
`` `Failed to reply: ${issueResponse.status} - ${error}` `` where `error`
is the fallback response's text. -/
def replyFailMsg (status : Nat) (text : String) : String :=
  "Failed to reply: " ++ toString status ++ " - " ++ text

/-- `replyToComment` from `lib/comments.js`: try the inline thread-reply
endpoint; on any non-success fall back to posting a general comment with
the `> Re: comment <id>` prefix; throw only if the fallback also fails. -/
def replyToComment (owner repo : String) (prNumber : Nat) (commentId : String)
    (message : String) (proxyFetch : ReplyRequest → ReplyResponse) :
    Except String ReplyEntity :=
  let response := proxyFetch (inlineReplyRequest owner repo prNumber commentId message)
  if response.ok then .ok response.json
  else
    let issueResponse :=
      proxyFetch (issueCommentRequest owner repo prNumber commentId message)
    if issueResponse.ok then .ok issueResponse.json
    else .error (replyFailMsg issueResponse.status issueResponse.text)

/-- The options consumed by `watchForComments` (the filter options plus
`--interval` and `--timeout`, in seconds). -/
structure WatchOptions extends FilterOptions where
  watchInterval : Nat
  watchTimeout : Nat
deriving DecidableEq

/-- The environment a watch invocation runs against: the raw data the
`fetchPRComments` call returns on the priming fetch (index `0`), on poll
number `k ≥ 1`, and on the grace re-fetch performed after a detection on
poll `k`. -/
structure WatchEnv where
  pollData : Nat → CommentData
  graceData : Nat → CommentData

/-- The terminal result of a watch invocation: either the reported list of
newly-detected entities (with the final seen-id set), or the idle-timeout
summary (poll count and tracked ids). -/
inductive WatchOutcome
  | newComments (reported : List ProcessedComment) (seen : List Nat)
  | idleTimeout (pollCount : Nat) (seen : List Nat)
deriving DecidableEq

/-- `seenIds.add(id)` on an insertion-ordered set modelled as a
duplicate-free list. -/
def addSeen (seen : List Nat) (id : Nat) : List Nat :=
  if seen.contains id then seen else seen ++ [id]

/-- Add every comment's id to the seen set, in order. -/
def addAllSeen (seen : List Nat) (cs : List ProcessedComment) : List Nat :=
  cs.foldl (fun s c => addSeen s c.id) seen

/-- One `fetchPRComments` → `processComments` → `filterComments` pass on
the data of poll `k` (the watch loop always uses the default meta
filters). -/
def pollFiltered (env : WatchEnv) (options : WatchOptions) (k : Nat) :
    List ProcessedComment :=
  filterComments (processComments (env.pollData k) DEFAULT_META_FILTERS)
    options.toFilterOptions

/-- The same pass on the grace re-fetch data of poll `k`. -/
def graceFiltered (env : WatchEnv) (options : WatchOptions) (k : Nat) :
    List ProcessedComment :=
  filterComments (processComments (env.graceData k) DEFAULT_META_FILTERS)
    options.toFilterOptions

/-- The unseen comments surfaced by poll `k` against seen set `seen`. -/
def newAt (env : WatchEnv) (options : WatchOptions) (k : Nat)
    (seen : List Nat) : List ProcessedComment :=
  (pollFiltered env options k).filter fun c => !seen.contains c.id

/-- The stragglers surfaced by the grace re-fetch of poll `k`, after the
first-pass ids have been marked seen. -/
def lateAt (env : WatchEnv) (options : WatchOptions) (k : Nat)
    (seen : List Nat) : List ProcessedComment :=
  (graceFiltered env options k).filter fun c =>
    !(addAllSeen seen (newAt env options k seen)).contains c.id

/-- The `while (true)` loop of `watchForComments`.  Each iteration sleeps
`watchInterval` seconds, re-runs the pipeline, and either reports (after
the fixed 5-second grace sleep and one grace re-fetch) or checks the idle
timeout.  Sleeps are returned as a log (in seconds, in order) so that the
polling/grace structure is observable; elapsed time since the start is
`pollCount * watchInterval` (fetches are instantaneous in this model, and
the source never updates `lastActivityTime` after initialisation).  Fuel
bounds the iterations; `none` means the loop outran the fuel. -/
def watchLoopGo (env : WatchEnv) (options : WatchOptions) :
    Nat → List Nat → Nat → List Nat × Option WatchOutcome
  | 0, _, _ => ([], none)
  | fuel + 1, seenIds, pollCount =>
    let pc := pollCount + 1
    let newComments := newAt env options pc seenIds
    if newComments.isEmpty then
      let inactiveSeconds := pc * options.watchInterval
      if options.watchTimeout ≤ inactiveSeconds then
        ([options.watchInterval], some (.idleTimeout pc seenIds))
      else
        let rest := watchLoopGo env options fuel seenIds pc
        (options.watchInterval :: rest.1, rest.2)
    else
      let seen1 := addAllSeen seenIds newComments
      let lateComments := lateAt env options pc seenIds
      let seen2 := addAllSeen seen1 lateComments
      ([options.watchInterval, 5],
        some (.newComments (newComments ++ lateComments) seen2))

/-- The seen-id set primed by the initial fetch (`for (const comment of
initialFiltered) seenIds.add(comment.id)`). -/
def primingSeen (env : WatchEnv) (options : WatchOptions) : List Nat :=
  addAllSeen [] (pollFiltered env options 0)

/-- `watchForComments` from `bin/agent-reviews.js`: prime the seen set
from an initial fetch, then run the watch loop.  Returns the sleep log and
the terminal outcome. -/
def watchForComments (env : WatchEnv) (options : WatchOptions)
    (fuel : Nat) : List Nat × Option WatchOutcome :=
  watchLoopGo env options fuel (primingSeen env options) 0

/-- An issue comment with id `i` (used by the watch scenario). -/
def sampleIssue (i : Nat) : IssueComment :=
  { id := i
    user := "ann"
    body := "hello"
    created_at := 5
    updated_at := 5
    html_url := "url" }

/-- A watch environment: the priming fetch sees no comments, every poll
sees the comment with id 10, and the grace re-fetch additionally sees the
straggler with id 11. -/
def watchEnvOne : WatchEnv :=
  { pollData := fun k =>
      if k = 0 then { reviewComments := [], issueComments := [], reviews := [] }
      else { reviewComments := [], issueComments := [sampleIssue 10], reviews := [] }
    graceData := fun _ =>
      { reviewComments := [], issueComments := [sampleIssue 10, sampleIssue 11],
        reviews := [] } }

/-- Watch options for the scenario: no filters, interval 1, timeout 600. -/
def watchOptsOne : WatchOptions :=
  { botsOnly := false
    humansOnly := false
    filter := none
    watchInterval := 1
    watchTimeout := 600 }

/-! ### Concrete instances used in witnesses and counterexamples -/

/-- A sample normalized comment (a plain human issue comment). -/
def sampleComment : ProcessedComment :=
  { id := 1
    type := "issue_comment"
    user := "alice"
    isBot := false
    path := none
    line := none
    diffHunk := none
    body := "hi"
    state := none
    createdAt := 0
    updatedAt := 0
    url := "u"
    replies := []
    hasHumanReply := false
    hasAnyReply := false
    isResolved := false }

/-- A thread-root inline comment from a human author. -/
def inlineAt (i : Nat) (u : String) (t : Int) : ReviewComment :=
  { id := i
    in_reply_to_id := none
    user := u
    body := "finding"
    path := some "src/a.js"
    line := some 3
    original_line := none
    diff_hunk := some "hunk"
    created_at := t
    updated_at := t
    html_url := "url"
  }

/-- An inline comment that replies to comment `parent`. -/
def replyAt (i parent : Nat) (u : String) (t : Int) : ReviewComment :=
  { id := i
    in_reply_to_id := some parent
    user := u
    body := "reply"
    path := some "src/a.js"
    line := some 3
    original_line := none
    diff_hunk := none
    created_at := t
    updated_at := t
    html_url := "url"
  }

/-- Three thread-root inline comments with creation times `t1`, `t2`,
`t3`, in that input order. -/
def threeInline (t1 t2 t3 : Int) : CommentData :=
  { reviewComments := [inlineAt 1 "ann" t1, inlineAt 2 "bea" t2, inlineAt 3 "cam" t3]
    issueComments := []
    reviews := [] }

/-- One root and one reply whose declared parent id (99) matches no
inline comment. -/
def orphanData : CommentData :=
  { reviewComments := [inlineAt 1 "ann" 10, replyAt 2 99 "bea" 11]
    issueComments := []
    reviews := [] }

/-- A root (id 1), a reply to it (id 2), and a reply to the reply
(id 3). -/
def chainData : CommentData :=
  { reviewComments := [inlineAt 1 "ann" 10, replyAt 2 1 "bea" 11, replyAt 3 2 "cam" 12]
    issueComments := []
    reviews := [] }

/-- An approved review verdict with written content. -/
def sampleReview : Review :=
  { id := 7
    user := "dan"
    body := "LGTM"
    state := "APPROVED"
    submitted_at := 20
    html_url := "url" }

/-- A review collection holding `sampleReview` and a verdict with a
whitespace-only body. -/
def reviewData : CommentData :=
  { reviewComments := []
    issueComments := []
    reviews := [sampleReview,
      { id := 8
        user := "eve"
        body := "  "
        state := "CHANGES_REQUESTED"
        submitted_at := 21
        html_url := "url" }] }

/-- A two-page transport: `"page1"` succeeds with items `[1, 2]` and a
`Link` header pointing at `"page2"`; every other URL (in particular
`"page2"`) fails with status 500. -/
def pagedFetch : String → HttpResponse Nat := fun url =>
  if url = "page1" then
    { ok := true, status := 200, json := [1, 2],
      linkHeader := some "<page2>; rel=\"next\"" }
  else { ok := false, status := 500, json := [], linkHeader := none }

/-- A reply transport in which the inline thread-reply endpoint fails
with status `s` and every other request (the fallback issue-comment
endpoint) fails with status 422 and text `"bad"`. -/
def replyFetchWith (s : Nat) : ReplyRequest → ReplyResponse := fun req =>
  if req.url = (inlineReplyRequest "o" "r" 1 "7" "msg").url then
    ⟨false, s, ⟨""⟩, "nf"⟩
  else ⟨false, 422, ⟨""⟩, "bad"⟩

/-! ### Lemmas about the sanitizer -/

theorem isPrefixOf_append_right (pat : List Char) :
    ∀ u v : List Char, pat.isPrefixOf u = true → pat.isPrefixOf (u ++ v) = true := by
  induction pat with
  | nil => intro u v _; simp [List.isPrefixOf]
  | cons p ps ih =>
    intro u v h
    cases u with
    | nil => simp [List.isPrefixOf] at h
    | cons c cs =>
      simp only [List.isPrefixOf, Bool.and_eq_true] at h
      simp only [List.cons_append, List.isPrefixOf, Bool.and_eq_true]
      exact ⟨h.1, ih cs v h.2⟩

theorem containsSeq_cons_false (pat c : _) (cs : List Char)
    (h : containsSeq pat (c :: cs) = false) : containsSeq pat cs = false := by
  simp only [containsSeq, Bool.or_eq_false_iff] at h
  exact h.2

theorem containsSeq_append_right (pat : List Char) :
    ∀ xs ys : List Char, containsSeq pat (xs ++ ys) = false →
      containsSeq pat ys = false := by
  intro xs
  induction xs with
  | nil => intro ys h; exact h
  | cons x xs ih =>
    intro ys h
    exact ih ys (containsSeq_cons_false _ _ _ h)

theorem containsSeq_append_left (pat : List Char) (hp : pat.isEmpty = false) :
    ∀ xs ys : List Char, containsSeq pat (xs ++ ys) = false →
      containsSeq pat xs = false := by
  intro xs
  induction xs with
  | nil => intro ys _; simp [containsSeq, hp]
  | cons x xs ih =>
    intro ys h
    simp only [List.cons_append, containsSeq, Bool.or_eq_false_iff,
      List.append_eq] at h
    simp only [containsSeq, Bool.or_eq_false_iff]
    refine ⟨?_, ih ys h.2⟩
    cases hx : pat.isPrefixOf (x :: xs) with
    | false => rfl
    | true =>
      have := isPrefixOf_append_right pat (x :: xs) ys hx
      simp only [List.cons_append] at this
      rw [this] at h
      exact absurd h.1 (by simp)

theorem containsSeq_dropWhile_false (pat : List Char) (q : Char → Bool) :
    ∀ l : List Char, containsSeq pat l = false →
      containsSeq pat (l.dropWhile q) = false := by
  intro l
  induction l with
  | nil => intro h; exact h
  | cons c cs ih =>
    intro h
    by_cases hq : q c = true
    · rw [List.dropWhile_cons_of_pos hq]
      exact ih (containsSeq_cons_false _ _ _ h)
    · rw [List.dropWhile_cons_of_neg (by simpa using hq)]
      exact h

theorem trimRightL_decomp : ∀ l : List Char, ∃ t, l = trimRightL l ++ t := by
  intro l
  induction l with
  | nil => exact ⟨[], rfl⟩
  | cons c cs ih =>
    obtain ⟨t, ht⟩ := ih
    by_cases hc : ((trimRightL cs).isEmpty && jsWhite c) = true
    · refine ⟨c :: cs, ?_⟩
      simp [trimRightL, hc]
    · refine ⟨t, ?_⟩
      simp only [trimRightL, if_neg hc, List.cons_append]
      exact congrArg (c :: ·) ht

theorem trimRightL_containsSeq_false (pat : List Char) (hp : pat.isEmpty = false) :
    ∀ l : List Char, containsSeq pat l = false →
      containsSeq pat (trimRightL l) = false := by
  intro l
  induction l with
  | nil => intro h; exact h
  | cons c cs ih =>
    intro h
    simp only [containsSeq, Bool.or_eq_false_iff] at h
    by_cases hc : ((trimRightL cs).isEmpty && jsWhite c) = true
    · simp [trimRightL, hc, containsSeq, hp]
    · simp only [trimRightL, if_neg hc]
      simp only [containsSeq, Bool.or_eq_false_iff]
      refine ⟨?_, ih h.2⟩
      cases hx : pat.isPrefixOf (c :: trimRightL cs) with
      | false => rfl
      | true =>
        obtain ⟨t, ht⟩ := trimRightL_decomp cs
        have := isPrefixOf_append_right pat (c :: trimRightL cs) t hx
        simp only [List.cons_append] at this
        rw [← ht] at this
        rw [this] at h
        exact absurd h.1 (by simp)

theorem trimRightL_idem : ∀ l : List Char, trimRightL (trimRightL l) = trimRightL l := by
  intro l
  induction l with
  | nil => rfl
  | cons c cs ih =>
    by_cases hc : ((trimRightL cs).isEmpty && jsWhite c) = true
    · simp [trimRightL, hc]
    · simp only [trimRightL, if_neg hc]
      simp only [trimRightL, ih]
      rw [if_neg hc]

theorem dropWhile_idem_self (q : Char → Bool) :
    ∀ l : List Char, (l.dropWhile q).dropWhile q = l.dropWhile q := by
  intro l
  induction l with
  | nil => rfl
  | cons c cs ih =>
    by_cases hq : q c = true
    · rw [List.dropWhile_cons_of_pos hq]; exact ih
    · rw [List.dropWhile_cons_of_neg (by simpa using hq),
        List.dropWhile_cons_of_neg (by simpa using hq)]

theorem dropWhile_length_le (q : Char → Bool) :
    ∀ l : List Char, (l.dropWhile q).length ≤ l.length := by
  intro l
  induction l with
  | nil => simp
  | cons c cs ih =>
    by_cases hq : q c = true
    · rw [List.dropWhile_cons_of_pos hq]
      simp only [List.length_cons]
      omega
    · rw [List.dropWhile_cons_of_neg (by simpa using hq)]

theorem dropWhile_trimRightL (l : List Char)
    (h : l.dropWhile jsWhite = l) :
    (trimRightL l).dropWhile jsWhite = trimRightL l := by
  cases l with
  | nil => rfl
  | cons c cs =>
    have hc : jsWhite c = false := by
      cases hw : jsWhite c with
      | false => rfl
      | true =>
        rw [List.dropWhile_cons_of_pos hw] at h
        have := congrArg List.length h
        simp only [List.length_cons] at this
        have hle := dropWhile_length_le jsWhite cs
        omega
    by_cases hb : ((trimRightL cs).isEmpty && jsWhite c) = true
    · simp [trimRightL, hb]
    · simp only [trimRightL, if_neg hb]
      rw [List.dropWhile_cons_of_neg (by simp [hc])]

theorem trimL_idem (l : List Char) : trimL (trimL l) = trimL l := by
  unfold trimL trimLeftL
  rw [dropWhile_trimRightL (l.dropWhile jsWhite) (dropWhile_idem_self jsWhite l)]
  exact trimRightL_idem _

theorem removeAllGo_id (m : List Char → Option (List Char)) :
    ∀ n l, l.length ≤ n → matchNowhere m l = true → removeAllGo m n l = l := by
  intro n
  induction n with
  | zero =>
    intro l hl _
    cases l with
    | nil => rfl
    | cons c cs => simp at hl
  | succ n ih =>
    intro l hl hm
    cases l with
    | nil => rfl
    | cons c cs =>
      simp only [matchNowhere, Bool.and_eq_true] at hm
      have hnone : m (c :: cs) = none := Option.isNone_iff_eq_none.mp hm.1
      simp only [removeAllGo, hnone]
      have : cs.length ≤ n := by simpa using Nat.le_of_succ_le_succ hl
      rw [ih cs this hm.2]

theorem removeAll_id (m : List Char → Option (List Char)) (l : List Char)
    (h : matchNowhere m l = true) : removeAll m l = l :=
  removeAllGo_id m l.length l le_rfl h

theorem containsSeq_triple_replicate (p : Nat) (l : List Char) (h : 3 ≤ p) :
    containsSeq tripleNewline (List.replicate p '\n' ++ l) = true := by
  obtain ⟨k, rfl⟩ : ∃ k, p = k + 3 := ⟨p - 3, by omega⟩
  simp only [show k + 3 = (k + 2) + 1 from rfl, show k + 2 = (k + 1) + 1 from rfl,
    List.replicate_succ, List.cons_append]
  simp [containsSeq, tripleNewline, List.isPrefixOf]

theorem collapseGo_of_no_triple :
    ∀ (l : List Char) (p : Nat),
      containsSeq tripleNewline (List.replicate p '\n' ++ l) = false →
      collapseGo p l = List.replicate p '\n' ++ l := by
  intro l
  induction l with
  | nil =>
    intro p h
    have hp : ¬ 3 ≤ p := by
      intro hge
      rw [containsSeq_triple_replicate p [] hge] at h
      exact absurd h (by simp)
    simp [collapseGo, hp]
  | cons c cs ih =>
    intro p h
    by_cases hc : c = '\n'
    · subst hc
      have hrepl : List.replicate p '\n' ++ '\n' :: cs
          = List.replicate (p + 1) '\n' ++ cs := by
        rw [List.replicate_succ' (n := p)]
        simp
      simp only [collapseGo, if_pos rfl]
      rw [hrepl] at h ⊢
      exact ih (p + 1) h
    · have hp : ¬ 3 ≤ p := by
        intro hge
        rw [containsSeq_triple_replicate p (c :: cs) hge] at h
        exact absurd h (by simp)
      have hcs : containsSeq tripleNewline cs = false :=
        containsSeq_cons_false _ _ _ (containsSeq_append_right _ _ _ h)
      simp only [collapseGo, if_neg hc, if_neg hp]
      rw [ih 0 (by simpa using hcs)]
      simp

theorem containsSeq_triple_glue (k : Nat) (hk : k ≤ 2) (c : Char)
    (hc : c ≠ '\n') (r : List Char)
    (hr : containsSeq tripleNewline r = false) :
    containsSeq tripleNewline (List.replicate k '\n' ++ c :: r) = false := by
  have hc' : ('\n' == c) = false := by
    cases h : ('\n' == c) with
    | false => rfl
    | true => exact absurd (beq_iff_eq.mp h).symm hc
  simp only [tripleNewline] at hr ⊢
  interval_cases k <;>
    simp [containsSeq, List.isPrefixOf, hc', hr, List.replicate]

theorem collapseGo_no_triple :
    ∀ (l : List Char) (p : Nat),
      containsSeq tripleNewline (collapseGo p l) = false := by
  intro l
  induction l with
  | nil =>
    intro p
    by_cases hp : 3 ≤ p
    · simp only [collapseGo, if_pos hp]; decide
    · simp only [collapseGo, if_neg hp]
      have : p ≤ 2 := by omega
      interval_cases p <;> decide
  | cons c cs ih =>
    intro p
    by_cases hc : c = '\n'
    · subst hc
      simp only [collapseGo, if_pos rfl]
      exact ih (p + 1)
    · simp only [collapseGo, if_neg hc]
      by_cases hp : 3 ≤ p
      · rw [if_pos hp]
        have h2 : ([ '\n', '\n' ] : List Char) = List.replicate 2 '\n' := rfl
        rw [h2]
        exact containsSeq_triple_glue 2 (by omega) c hc _ (ih 0)
      · rw [if_neg hp]
        exact containsSeq_triple_glue p (by omega) c hc _ (ih 0)

theorem trimL_containsSeq_false (pat : List Char) (hp : pat.isEmpty = false)
    (l : List Char) (h : containsSeq pat l = false) :
    containsSeq pat (trimL l) = false :=
  trimRightL_containsSeq_false pat hp _
    (containsSeq_dropWhile_false pat jsWhite l h)

theorem cleanBodyL_eq_trimL (l : List Char)
    (h1 : matchNowhere commentMatchAt l = true)
    (h2 : matchNowhere detailsMatchAt l = true)
    (h3 : matchNowhere pMatchAt l = true)
    (h4 : containsSeq tripleNewline l = false) :
    cleanBodyL l = trimL l := by
  by_cases hl : l = []
  · subst hl; rfl
  · unfold cleanBodyL
    rw [if_neg hl]
    show trimL (collapseGo 0 (removeAll pMatchAt
      (removeAll detailsMatchAt (removeAll commentMatchAt l)))) = trimL l
    rw [removeAll_id _ _ h1, removeAll_id _ _ h2, removeAll_id _ _ h3]
    rw [show collapseGo 0 l = List.replicate 0 '\n' ++ l from
      collapseGo_of_no_triple l 0 (by simpa using h4)]
    simp

theorem cleanBodyL_no_triple (l : List Char) :
    containsSeq tripleNewline (cleanBodyL l) = false := by
  by_cases hl : l = []
  · subst hl; decide
  · unfold cleanBodyL
    rw [if_neg hl]
    exact trimL_containsSeq_false _ (by decide) _ (collapseGo_no_triple _ 0)

theorem trimL_cleanBodyL (l : List Char) :
    trimL (cleanBodyL l) = cleanBodyL l := by
  by_cases hl : l = []
  · subst hl; rfl
  · have : cleanBodyL l = trimL (collapseGo 0 (removeAll pMatchAt
        (removeAll detailsMatchAt (removeAll commentMatchAt l)))) := by
      unfold cleanBodyL
      rw [if_neg hl]
    rw [this]
    exact trimL_idem _

theorem cleanBodyL_fix (l : List Char)
    (h1 : matchNowhere commentMatchAt (cleanBodyL l) = true)
    (h2 : matchNowhere detailsMatchAt (cleanBodyL l) = true)
    (h3 : matchNowhere pMatchAt (cleanBodyL l) = true) :
    cleanBodyL (cleanBodyL l) = cleanBodyL l := by
  rw [cleanBodyL_eq_trimL _ h1 h2 h3 (cleanBodyL_no_triple l)]
  exact trimL_cleanBodyL l

/-! ### C1: sanitizer idempotence -/

/-- C1, counterexample.  The claim "for every input text T,
`sanitize(sanitize(T)) == sanitize(T)`, including for inputs containing
nested or overlapping HTML-comment markers" is false: on
`"<!<!-- x -->-- y -->"` the first pass removes the inner `<!-- x -->`,
and the removal splices the remaining characters into a fresh HTML
comment `<!-- y -->`, which only a second pass removes
(first pass yields `"<!-- y -->"`, second pass yields `""`). -/
theorem cleanBody_not_idempotent :
    cleanBody (cleanBody "<!<!-- x -->-- y -->")
      ≠ cleanBody "<!<!-- x -->-- y -->" := by decide

/-- C1, amended.  The sanitizer is idempotent on every input whose
sanitized output contains no residual occurrence of any of the three
removal patterns (HTML comment, targeted `<details>` block, targeted
`<p>` block) — i.e. idempotence holds unless a removal splices
surrounding characters into a fresh marker, as in the counterexample.
(No condition on newline runs or outer whitespace is needed: the
output of the collapse step never contains three consecutive newlines
and the final trim is idempotent.) -/
theorem cleanBody_idempotent_of_no_residual (s : String)
    (h1 : matchNowhere commentMatchAt (cleanBody s).data = true)
    (h2 : matchNowhere detailsMatchAt (cleanBody s).data = true)
    (h3 : matchNowhere pMatchAt (cleanBody s).data = true) :
    cleanBody (cleanBody s) = cleanBody s := by
  show String.mk (cleanBodyL (cleanBodyL s.data)) = String.mk (cleanBodyL s.data)
  exact congrArg String.mk (cleanBodyL_fix s.data h1 h2 h3)

/-- C1, witness for the amended theorem at the concrete input
`"<!-- note -->hello world"`. -/
theorem cleanBody_idempotent_of_no_residual_witness :
    (matchNowhere commentMatchAt (cleanBody "<!-- note -->hello world").data = true
      ∧ matchNowhere detailsMatchAt (cleanBody "<!-- note -->hello world").data = true
      ∧ matchNowhere pMatchAt (cleanBody "<!-- note -->hello world").data = true)
    ∧ cleanBody (cleanBody "<!-- note -->hello world")
        = cleanBody "<!-- note -->hello world" :=
  ⟨⟨by decide, by decide, by decide⟩,
    cleanBody_idempotent_of_no_residual "<!-- note -->hello world"
      (by decide) (by decide) (by decide)⟩

/-! ### C9: sanitizer safety on marker-free input -/

/-- C9, counterexample.  The claim "input containing none of the
boilerplate markers is returned unchanged except for trimming leading and
trailing whitespace" is false: `"a\n\n\nb"` contains no HTML comment, no
targeted `<details>` block and no targeted `<p>` block, yet the sanitizer
also collapses the interior newline run, returning `"a\n\nb"` where
trimming alone would return `"a\n\n\nb"` unchanged. -/
theorem cleanBody_changes_marker_free_input :
    (matchNowhere commentMatchAt "a\n\n\nb".data = true
      ∧ matchNowhere detailsMatchAt "a\n\n\nb".data = true
      ∧ matchNowhere pMatchAt "a\n\n\nb".data = true)
    ∧ cleanBody "a\n\n\nb" ≠ jsTrim "a\n\n\nb" :=
  ⟨⟨by decide, by decide, by decide⟩, by decide⟩

/-- C9, amended.  On input containing none of the boilerplate markers
AND no run of three or more consecutive newlines, the sanitizer returns
the text unchanged except for trimming leading and trailing whitespace. -/
theorem cleanBody_marker_free_is_trim (s : String)
    (h1 : matchNowhere commentMatchAt s.data = true)
    (h2 : matchNowhere detailsMatchAt s.data = true)
    (h3 : matchNowhere pMatchAt s.data = true)
    (h4 : containsSeq tripleNewline s.data = false) :
    cleanBody s = jsTrim s :=
  congrArg String.mk (cleanBodyL_eq_trimL s.data h1 h2 h3 h4)

/-! ### C3: filter engine effects -/

theorem Heap.read_snoc (h : Heap) (a : List ProcessedComment) :
    Heap.read (h ++ [a]) h.length = a := by
  unfold Heap.read
  rw [List.getD_eq_getElem?_getD, List.getElem?_append_right le_rfl]
  simp

theorem Heap.read_snoc2 (h : Heap) (x y : List ProcessedComment) :
    Heap.read (h ++ [x, y]) (h.length + 1) = y := by
  have h2 : h ++ [x, y] = (h ++ [x]) ++ [y] := by simp
  rw [h2, show h.length + 1 = (h ++ [x]).length by simp]
  exact Heap.read_snoc _ _

/-- Every step of `filterCommentsRef` only appends fresh arrays: earlier
heap cells (in particular the input) are untouched, and the returned
reference holds the value-level `filterComments` of the input. -/
theorem filterCommentsRef_frame_read (h : Heap) (r : Nat)
    (options : FilterOptions) :
    (∃ extra, (filterCommentsRef h r options).1 = h ++ extra)
    ∧ Heap.read (filterCommentsRef h r options).1 (filterCommentsRef h r options).2
        = filterComments (Heap.read h r) options := by
  rcases options with ⟨b, hu, f⟩
  unfold filterCommentsRef filterComments heapFilter
  by_cases hf1 : f = some "unresolved" <;> by_cases hf2 : f = some "unanswered" <;>
    cases b <;> cases hu <;>
      simp [hf1, hf2, Heap.read_snoc, Heap.read_snoc2, List.append_assoc]

/-- With no actor-class option and no recognized state filter,
`filterComments` performs no `.filter` call and returns its argument
array itself: no allocation happens and the input reference is handed
back. -/
theorem filterCommentsRef_noop (h : Heap) (r : Nat) (options : FilterOptions)
    (hb : options.botsOnly = false) (hh : options.humansOnly = false)
    (hf1 : options.filter ≠ some "unresolved")
    (hf2 : options.filter ≠ some "unanswered") :
    filterCommentsRef h r options = (h, r) := by
  rcases options with ⟨b, hu, f⟩
  simp only at hb hh hf1 hf2
  subst hb hh
  unfold filterCommentsRef
  simp [hf1, hf2]

/-- Whenever an actor-class option or a recognized state filter applies,
at least one `.filter` step runs, so the reference handed back indexes a
cell allocated during this call: it lies at or beyond the original heap's
end (in particular it differs from every pre-existing reference). -/
theorem filterCommentsRef_fresh (h : Heap) (r : Nat) (options : FilterOptions)
    (happ : options.botsOnly = true ∨ options.humansOnly = true
      ∨ options.filter = some "unresolved"
      ∨ options.filter = some "unanswered") :
    List.length h ≤ (filterCommentsRef h r options).2 := by
  rcases options with ⟨b, hu, f⟩
  unfold filterCommentsRef heapFilter
  by_cases hf1 : f = some "unresolved" <;> by_cases hf2 : f = some "unanswered" <;>
    cases b <;> cases hu <;>
      simp_all

/-- C3, counterexample.  The claim says the filter engine "returns a new
collection ... for every filter configuration (including the
configuration where no actor-class option and no recognized state filter
is set)".  In that configuration the source runs no `.filter` step and
returns the very array it was given: starting from a one-cell heap, the
call allocates nothing and hands back reference `0`, the input reference
— the input is unmodified, but the result is not a new collection. -/
theorem filterComments_no_new_collection :
    filterCommentsRef [[sampleComment]] 0
        { botsOnly := false, humansOnly := false, filter := none }
      = ([[sampleComment]], 0) := by decide

/-- C3, amended.  The filter engine never mutates its input: the heap is
only extended (`∃ extra`), every pre-existing cell — including the input
collection — is preserved verbatim, and the returned reference holds
exactly the filtered contents.  When an actor-class option or a
recognized state filter applies, the result is a freshly allocated
collection (the returned reference lies at or beyond the original heap's
end, so it is none of the pre-existing collections); in the configuration
with no such option the input collection itself (same reference, still
unmodified) is returned rather than a new one. -/
theorem filterComments_pure (h : Heap) (r : Nat) (options : FilterOptions) :
    (∃ extra, (filterCommentsRef h r options).1 = h ++ extra)
    ∧ Heap.read (filterCommentsRef h r options).1 (filterCommentsRef h r options).2
        = filterComments (Heap.read h r) options
    ∧ ((options.botsOnly = true ∨ options.humansOnly = true
        ∨ options.filter = some "unresolved"
        ∨ options.filter = some "unanswered") →
        List.length h ≤ (filterCommentsRef h r options).2)
    ∧ (options.botsOnly = false → options.humansOnly = false →
        options.filter ≠ some "unresolved" → options.filter ≠ some "unanswered" →
        filterCommentsRef h r options = (h, r)) :=
  ⟨(filterCommentsRef_frame_read h r options).1,
    (filterCommentsRef_frame_read h r options).2,
    fun happ => filterCommentsRef_fresh h r options happ,
    fun hb hh hf1 hf2 => filterCommentsRef_noop h r options hb hh hf1 hf2⟩

/-- C3, witness: the amended theorem applied to a one-cell heap holding
a single comment, with the bots-only filter (which allocates a fresh
reference at or beyond the original heap's end) and, via the no-op
conjunct, with the empty configuration. -/
theorem filterComments_pure_witness :
    (Heap.read
        (filterCommentsRef [[sampleComment]] 0
          { botsOnly := true, humansOnly := false, filter := none }).1
        (filterCommentsRef [[sampleComment]] 0
          { botsOnly := true, humansOnly := false, filter := none }).2
      = filterComments [sampleComment]
          { botsOnly := true, humansOnly := false, filter := none })
    ∧ List.length [[sampleComment]]
        ≤ (filterCommentsRef [[sampleComment]] 0
            { botsOnly := true, humansOnly := false, filter := none }).2
    ∧ filterCommentsRef [[sampleComment]] 0
        { botsOnly := false, humansOnly := false, filter := none }
      = ([[sampleComment]], 0) :=
  ⟨(filterComments_pure [[sampleComment]] 0
      { botsOnly := true, humansOnly := false, filter := none }).2.1,
    (filterComments_pure [[sampleComment]] 0
      { botsOnly := true, humansOnly := false, filter := none }).2.2.1
      (Or.inl rfl),
    (filterComments_pure [[sampleComment]] 0
      { botsOnly := false, humansOnly := false, filter := none }).2.2.2
      rfl rfl (by decide) (by decide)⟩

/-! ### C4: pagination failure -/

theorem fetchAllPagesGo_fails (fetch : String → HttpResponse α) :
    ∀ (fuel : Nat) (next : Option String) (acc : List α),
      (∃ p ∈ fetchTrace fetch fuel next, p.2.ok = false) →
      ∃ pre u r, fetchTrace fetch fuel next = pre ++ [(u, r)]
        ∧ (∀ q ∈ pre, q.2.ok = true) ∧ r.ok = false
        ∧ fetchAllPagesGo fetch fuel next acc
            = some (.error (apiFailMsg r.status)) := by
  intro fuel
  induction fuel with
  | zero =>
    intro next acc hfail
    cases next with
    | none => simp [fetchTrace] at hfail
    | some url => simp [fetchTrace] at hfail
  | succ fuel ih =>
    intro next acc hfail
    cases next with
    | none => simp [fetchTrace] at hfail
    | some url =>
      cases hok : (fetch url).ok with
      | false =>
        refine ⟨[], url, fetch url, ?_, by simp, hok, ?_⟩
        · simp [fetchTrace, hok]
        · simp [fetchAllPagesGo, hok]
      | true =>
        have htr : fetchTrace fetch (fuel + 1) (some url)
            = (url, fetch url) :: fetchTrace fetch fuel (getNextUrl (fetch url).linkHeader) := by
          simp [fetchTrace, hok]
        rw [htr] at hfail
        obtain ⟨p, hp, hpo⟩ := hfail
        rcases List.mem_cons.mp hp with hp1 | hp2
        · rw [hp1] at hpo; rw [hpo] at hok; exact absurd hok (by simp)
        · obtain ⟨pre, u, r, he, hpre, hro, hgo⟩ :=
            ih (getNextUrl (fetch url).linkHeader) (acc ++ (fetch url).json) ⟨p, hp2, hpo⟩
          refine ⟨(url, fetch url) :: pre, u, r, ?_, ?_, hro, ?_⟩
          · rw [htr, he]; rfl
          · intro q hq
            rcases List.mem_cons.mp hq with hq1 | hq2
            · rw [hq1]; exact hok
            · exact hpre q hq2
          · simp only [fetchAllPagesGo, hok, if_pos]
            exact hgo

/-- C4, counterexample.  The claim says a failing page aborts the fetch
"with a FetchFailure carrying the failing status and the requested URL".
The source throws `` `API request failed: ${response.status}` ``: two runs
against the same transport that request different URLs (both failing with
404) produce the identical failure value, so the failure cannot carry the
requested URL. -/
theorem fetchAllPages_error_lacks_url :
    ("u1" : String) ≠ "u2"
    ∧ fetchAllPages (fun _ => (⟨false, 404, [], none⟩ : HttpResponse Nat)) "u1" 5
        = some (.error (apiFailMsg 404))
    ∧ fetchAllPages (fun _ => (⟨false, 404, [], none⟩ : HttpResponse Nat)) "u2" 5
        = some (.error (apiFailMsg 404)) :=
  ⟨by decide, rfl, rfl⟩

/-- C4, amended.  If any page of the link chain fails, the fetch fails
with the failure for the FIRST failing page, whose message carries the
failing status (but not the requested URL), and no partial result is
returned: the items of the successfully fetched earlier pages are
discarded (the result is never a success, whatever was accumulated). -/
theorem fetchAllPages_fails_discarding (fetch : String → HttpResponse α)
    (fuel : Nat) (url : String)
    (hfail : ∃ p ∈ fetchTrace fetch fuel (some url), p.2.ok = false) :
    ∃ pre u r, fetchTrace fetch fuel (some url) = pre ++ [(u, r)]
      ∧ (∀ q ∈ pre, q.2.ok = true) ∧ r.ok = false
      ∧ fetchAllPages fetch url fuel = some (.error (apiFailMsg r.status))
      ∧ ∀ items, fetchAllPages fetch url fuel ≠ some (.ok items) := by
  obtain ⟨pre, u, r, he, hpre, hro, hgo⟩ :=
    fetchAllPagesGo_fails fetch fuel (some url) [] hfail
  refine ⟨pre, u, r, he, hpre, hro, hgo, ?_⟩
  intro items hcontra
  rw [show fetchAllPages fetch url fuel = fetchAllPagesGo fetch fuel (some url) [] from rfl,
    hgo] at hcontra
  simp at hcontra

/-- C4, witness: a two-page chain whose first page succeeds with items
and whose second page fails with 500; the fetch fails with the status-500
message and returns no items. -/
theorem fetchAllPages_fails_discarding_witness :
    (∃ p ∈ fetchTrace pagedFetch 5 (some "page1"), p.2.ok = false)
    ∧ ∃ pre u r, fetchTrace pagedFetch 5 (some "page1") = pre ++ [(u, r)]
        ∧ (∀ q ∈ pre, q.2.ok = true) ∧ r.ok = false
        ∧ fetchAllPages pagedFetch "page1" 5 = some (.error (apiFailMsg r.status))
        ∧ ∀ items, fetchAllPages pagedFetch "page1" 5 ≠ some (.ok items) :=
  ⟨by decide, fetchAllPages_fails_discarding pagedFetch 5 "page1" (by decide)⟩

/-! ### C5: reply submission -/

/-- C5, counterexample.  The claim says that when both endpoints fail the
failure surfaces BOTH status codes.  The source throws
`` `Failed to reply: ${issueResponse.status} - ${error}` ``, built only
from the fallback response: two transports that differ solely in the
inline endpoint's failing status (404 vs 500) produce the identical
failure value, so the first endpoint's status is not surfaced. -/
theorem replyToComment_error_lacks_first_status :
    (404 : Nat) ≠ 500
    ∧ replyFetchWith 404 (inlineReplyRequest "o" "r" 1 "7" "msg") ≠
        replyFetchWith 500 (inlineReplyRequest "o" "r" 1 "7" "msg")
    ∧ replyToComment "o" "r" 1 "7" "msg" (replyFetchWith 404)
        = replyToComment "o" "r" 1 "7" "msg" (replyFetchWith 500)
    ∧ replyToComment "o" "r" 1 "7" "msg" (replyFetchWith 404)
        = .error (replyFailMsg 422 "bad") := by
  refine ⟨by decide, by decide, rfl, rfl⟩

/-- C5, amended.  The reply operation first issues the inline
thread-reply request; if it succeeds, the created entity (whose
`html_url` is the permalink) is returned.  On any non-success it issues
exactly one fallback request posting a general comment whose body is
prefixed `> Re: comment <id>` (see `issueCommentRequest`); if that
succeeds its created entity is returned, and if it also fails the
operation fails with a ReplyFailure carrying the FALLBACK endpoint's
status code and response text — the inline endpoint's status is not
included. -/
theorem replyToComment_spec (owner repo : String) (prNumber : Nat)
    (commentId message : String) (proxyFetch : ReplyRequest → ReplyResponse) :
    ((proxyFetch (inlineReplyRequest owner repo prNumber commentId message)).ok = true →
      replyToComment owner repo prNumber commentId message proxyFetch
        = .ok (proxyFetch (inlineReplyRequest owner repo prNumber commentId message)).json)
    ∧ ((proxyFetch (inlineReplyRequest owner repo prNumber commentId message)).ok = false →
        ((proxyFetch (issueCommentRequest owner repo prNumber commentId message)).ok = true →
          replyToComment owner repo prNumber commentId message proxyFetch
            = .ok (proxyFetch (issueCommentRequest owner repo prNumber commentId message)).json)
        ∧ ((proxyFetch (issueCommentRequest owner repo prNumber commentId message)).ok = false →
            replyToComment owner repo prNumber commentId message proxyFetch
              = .error (replyFailMsg
                  (proxyFetch (issueCommentRequest owner repo prNumber commentId message)).status
                  (proxyFetch (issueCommentRequest owner repo prNumber commentId message)).text))) := by
  unfold replyToComment
  refine ⟨fun h1 => ?_, fun h1 => ⟨fun h2 => ?_, fun h2 => ?_⟩⟩
  · simp [h1]
  · simp [h1, h2]
  · simp [h1, h2]

/-- C5, witness: with a transport whose inline endpoint fails with 404
and whose fallback fails with 422/"bad", the amended theorem yields the
fallback-only failure. -/
theorem replyToComment_spec_witness :
    replyToComment "o" "r" 1 "7" "msg" (replyFetchWith 404)
      = .error (replyFailMsg 422 "bad") :=
  ((replyToComment_spec "o" "r" 1 "7" "msg" (replyFetchWith 404)).2
    (by decide)).2 (by decide)

/-- C9, witness for the amended theorem at the concrete input
`"  see <b>the code</b> for details  "`. -/
theorem cleanBody_marker_free_is_trim_witness :
    (matchNowhere commentMatchAt "  see <b>the code</b> for details  ".data = true
      ∧ matchNowhere detailsMatchAt "  see <b>the code</b> for details  ".data = true
      ∧ matchNowhere pMatchAt "  see <b>the code</b> for details  ".data = true
      ∧ containsSeq tripleNewline "  see <b>the code</b> for details  ".data = false)
    ∧ cleanBody "  see <b>the code</b> for details  "
        = jsTrim "  see <b>the code</b> for details  " :=
  ⟨⟨by decide, by decide, by decide, by decide⟩,
    cleanBody_marker_free_is_trim "  see <b>the code</b> for details  "
      (by decide) (by decide) (by decide) (by decide)⟩

/-! ### Membership in the normalized collection -/

theorem mem_repliesFor (rc : List ReviewComment) (pid : Nat) (rep : Reply) :
    rep ∈ repliesFor rc pid ↔
      ∃ c ∈ rc, jsTruthyNat c.in_reply_to_id = true
        ∧ c.in_reply_to_id = some pid ∧ mkReply c = rep := by
  unfold repliesFor
  simp [List.mem_filter, List.mem_map, decide_eq_true_eq, Bool.and_eq_true,
    and_assoc]

theorem mem_processComments (data : CommentData)
    (mf : List (String → String → Bool)) (x : ProcessedComment) :
    x ∈ processComments data mf ↔
      ((∃ c ∈ data.reviewComments, jsTruthyNat c.in_reply_to_id = false
          ∧ isMetaComment c.user c.body mf = false
          ∧ reviewCommentEntity data.reviewComments c = x)
        ∨ (∃ c ∈ data.issueComments, isMetaComment c.user c.body mf = false
            ∧ issueCommentEntity c = x)
        ∨ (∃ r ∈ data.reviews, isMetaComment r.user r.body mf = false
            ∧ ¬ jsTrim r.body = "" ∧ reviewEntity r = x)) := by
  unfold processComments
  simp [List.mem_insertionSort, List.mem_append, List.mem_filter, List.mem_map,
    Bool.and_eq_true, Bool.not_eq_true', decide_eq_true_eq, and_assoc]

/-! ### C6: ordering of the normalized collection -/

/-- C6.  The normalized collection is always sorted by `createdAt`
descending (`byNewest`), for every input and every meta-filter list; and
for three inline comments with creation times `t1 < t2 < t3` the
normalized sequence carries the times in order `t3, t2, t1`. -/
theorem processComments_newest_first :
    (∀ (data : CommentData) (metaFilters : List (String → String → Bool)),
      List.Sorted byNewest (processComments data metaFilters))
    ∧ ∀ t1 t2 t3 : Int, t1 < t2 → t2 < t3 →
        (processComments (threeInline t1 t2 t3) DEFAULT_META_FILTERS).map
            (fun c => c.createdAt) = [t3, t2, t1] := by
  constructor
  · intro data metaFilters
    unfold processComments
    exact List.sorted_insertionSort byNewest _
  · intro t1 t2 t3 h12 h23
    have hn32 : ¬ (t3 ≤ t2) := by omega
    have hn31 : ¬ (t3 ≤ t1) := by omega
    have hn21 : ¬ (t2 ≤ t1) := by omega
    simp [processComments, threeInline, inlineAt, reviewCommentEntity,
      repliesFor, mkReply, isMetaComment, DEFAULT_META_FILTERS, isBot,
      byNewest, hn32, hn31, hn21]

/-- C6, witness at times `1 < 2 < 3`. -/
theorem processComments_newest_first_witness :
    (processComments (threeInline 1 2 3) DEFAULT_META_FILTERS).map
        (fun c => c.createdAt) = [3, 2, 1] :=
  processComments_newest_first.2 1 2 3 (by omega) (by omega)

/-! ### C7 and C10: reply attachment -/

/-- Core drop lemma: a reply `r2` (declared parent `p1`) appears nowhere
in the output — neither as a top-level entity nor inside any replies
sequence — provided no emitted root carries id `p1` and id `r2.id` is not
shared with any other input comment. -/
theorem reply_dropped_core (data : CommentData)
    (mf : List (String → String → Bool)) (r2 : ReviewComment) (p1 : Nat)
    (hp : r2.in_reply_to_id = some p1) (hpnz : p1 ≠ 0)
    (hnoroot : ∀ c ∈ data.reviewComments, jsTruthyNat c.in_reply_to_id = false →
      isMetaComment c.user c.body mf = false → c.id ≠ p1)
    (huniqR : ∀ c ∈ data.reviewComments, c.id = r2.id → c = r2)
    (huniqI : ∀ c ∈ data.issueComments, c.id ≠ r2.id)
    (huniqV : ∀ v ∈ data.reviews, v.id ≠ r2.id) :
    ∀ out ∈ processComments data mf,
      out.id ≠ r2.id ∧ ∀ rep ∈ out.replies, rep.id ≠ r2.id := by
  intro out hout
  rw [mem_processComments] at hout
  rcases hout with ⟨c, hc, hcn, hcm, hce⟩ | ⟨c, hc, hcm, hce⟩ | ⟨v, hv, hvm, hvt, hve⟩
  · constructor
    · intro hid
      have hcid : c.id = r2.id := by
        rw [← hce] at hid
        simpa [reviewCommentEntity] using hid
      have hcr : c = r2 := huniqR c hc hcid
      rw [hcr, hp] at hcn
      simp [jsTruthyNat] at hcn
      exact hpnz hcn
    · intro rep hrep hid
      have hrep' : rep ∈ repliesFor data.reviewComments c.id := by
        rw [← hce] at hrep
        simpa [reviewCommentEntity] using hrep
      rw [mem_repliesFor] at hrep'
      obtain ⟨src, hsrc, hstru, hsrcp, hsrce⟩ := hrep'
      have hsid : src.id = r2.id := by
        rw [← hsrce] at hid
        simpa [mkReply] using hid
      have hseq : src = r2 := huniqR src hsrc hsid
      rw [hseq, hp] at hsrcp
      have hcp : c.id = p1 := by
        have := Option.some.inj hsrcp
        omega
      exact hnoroot c hc hcn hcm hcp
  · constructor
    · intro hid
      have : c.id = r2.id := by
        rw [← hce] at hid
        simpa [issueCommentEntity] using hid
      exact huniqI c hc this
    · intro rep hrep
      rw [← hce] at hrep
      simp [issueCommentEntity] at hrep
  · constructor
    · intro hid
      have : v.id = r2.id := by
        rw [← hve] at hid
        simpa [reviewEntity] using hid
      exact huniqV v hv this
    · intro rep hrep
      rw [← hve] at hrep
      simp [reviewEntity] at hrep

/-- C7.  An inline comment `r` carrying a parent id `p` that matches no
comment in the inline set is silently dropped: no output entity has its
id, and no output entity's replies sequence contains it.  ("Carrying a
parent id" is the source's truthiness test, hence `p ≠ 0`; the id-based
phrasing of "does not appear" requires ids not to be shared between
distinct input comments — the `huniq` hypotheses, matching the spec's
id-uniqueness invariant.) -/
theorem orphan_reply_dropped (data : CommentData)
    (mf : List (String → String → Bool)) (r : ReviewComment) (p : Nat)
    (hr : r ∈ data.reviewComments) (hp : r.in_reply_to_id = some p)
    (hpnz : p ≠ 0)
    (hnop : ∀ c ∈ data.reviewComments, c.id ≠ p)
    (huniqR : ∀ c ∈ data.reviewComments, c.id = r.id → c = r)
    (huniqI : ∀ c ∈ data.issueComments, c.id ≠ r.id)
    (huniqV : ∀ v ∈ data.reviews, v.id ≠ r.id) :
    ∀ out ∈ processComments data mf,
      out.id ≠ r.id ∧ ∀ rep ∈ out.replies, rep.id ≠ r.id :=
  reply_dropped_core data mf r p hp hpnz (fun c hc _ _ => hnop c hc)
    huniqR huniqI huniqV

/-- C7, witness: a root (id 1) plus a reply (id 2) to nonexistent parent
99; the one emitted entity (the root) does not carry id 2 and holds no
reply with id 2. -/
theorem orphan_reply_dropped_witness :
    (reviewCommentEntity orphanData.reviewComments (inlineAt 1 "ann" 10)).id ≠ 2
    ∧ ∀ rep ∈ (reviewCommentEntity orphanData.reviewComments (inlineAt 1 "ann" 10)).replies,
        rep.id ≠ 2 :=
  orphan_reply_dropped orphanData DEFAULT_META_FILTERS (replyAt 2 99 "bea" 11) 99
    (by decide) (by decide) (by decide) (by decide) (by decide) (by decide)
    (by decide)
    (reviewCommentEntity orphanData.reviewComments (inlineAt 1 "ann" 10)) (by decide)

/-- C10, counterexample.  The claim says a reply to a reply is "dropped
entirely from the output along with its unreachable parent".  In the
chain root(1) ← reply(2) ← reply(3), the reply-to-a-reply (id 3) is
indeed dropped, but its parent (id 2) is NOT dropped: id 2 appears in the
output, attached as a Reply to root 1 (the replies map indexes every
`in_reply_to_id` carrier by its parent, and id 2's parent is the emitted
root). -/
theorem reply_parent_not_dropped :
    ∃ out ∈ processComments chainData DEFAULT_META_FILTERS,
      out.id = 1 ∧ ∃ rep ∈ out.replies, rep.id = 2 := by decide

/-- C10, amended.  (1) Every Reply in the output is attached to an
emitted, non-meta inline thread root and stems from an inline comment
declaring that root as its parent.  (2) A reply whose declared parent is
itself a reply is dropped from the output (it appears neither top-level
nor in any replies sequence), and likewise (3) a reply whose declared
parent is suppressed by a meta-comment predicate.  (4) Such a parent —
an inline comment that is itself a reply or is meta-suppressed — is
never emitted as a top-level entity (no output entity carries its id),
but — contrary to the original claim — a parent that is itself a reply
to an emitted root still appears as a Reply under that root (see the
counterexample). -/
theorem replies_attached_to_emitted_roots :
    (∀ (data : CommentData) (mf : List (String → String → Bool))
        (out : ProcessedComment) (rep : Reply),
        out ∈ processComments data mf → rep ∈ out.replies →
        out.type = "review_comment"
          ∧ ∃ c ∈ data.reviewComments, jsTruthyNat c.in_reply_to_id = false
              ∧ isMetaComment c.user c.body mf = false
              ∧ out.id = c.id
              ∧ ∃ src ∈ data.reviewComments,
                  src.in_reply_to_id = some c.id ∧ mkReply src = rep)
    ∧ (∀ (data : CommentData) (mf : List (String → String → Bool))
        (r2 r1 : ReviewComment) (p1 : Nat),
        r2 ∈ data.reviewComments → r2.in_reply_to_id = some p1 →
        jsTruthyNat r2.in_reply_to_id = true →
        r1 ∈ data.reviewComments → (∀ c ∈ data.reviewComments, c.id = p1 → c = r1) →
        jsTruthyNat r1.in_reply_to_id = true →
        (∀ c ∈ data.reviewComments, c.id = r2.id → c = r2) →
        (∀ c ∈ data.issueComments, c.id ≠ r2.id) →
        (∀ v ∈ data.reviews, v.id ≠ r2.id) →
        ∀ out ∈ processComments data mf,
          out.id ≠ r2.id ∧ ∀ rep ∈ out.replies, rep.id ≠ r2.id)
    ∧ (∀ (data : CommentData) (mf : List (String → String → Bool))
        (r2 r1 : ReviewComment) (p1 : Nat),
        r2 ∈ data.reviewComments → r2.in_reply_to_id = some p1 →
        jsTruthyNat r2.in_reply_to_id = true →
        r1 ∈ data.reviewComments → (∀ c ∈ data.reviewComments, c.id = p1 → c = r1) →
        isMetaComment r1.user r1.body mf = true →
        (∀ c ∈ data.reviewComments, c.id = r2.id → c = r2) →
        (∀ c ∈ data.issueComments, c.id ≠ r2.id) →
        (∀ v ∈ data.reviews, v.id ≠ r2.id) →
        ∀ out ∈ processComments data mf,
          out.id ≠ r2.id ∧ ∀ rep ∈ out.replies, rep.id ≠ r2.id)
    ∧ (∀ (data : CommentData) (mf : List (String → String → Bool))
        (r1 : ReviewComment), r1 ∈ data.reviewComments →
        (jsTruthyNat r1.in_reply_to_id = true
          ∨ isMetaComment r1.user r1.body mf = true) →
        (∀ c ∈ data.reviewComments, c.id = r1.id → c = r1) →
        (∀ c ∈ data.issueComments, c.id ≠ r1.id) →
        (∀ v ∈ data.reviews, v.id ≠ r1.id) →
        ∀ out ∈ processComments data mf, out.id ≠ r1.id) := by
  refine ⟨?_, ?_, ?_, ?_⟩
  · intro data mf out rep hout hrep
    rw [mem_processComments] at hout
    rcases hout with ⟨c, hc, hcn, hcm, hce⟩ | ⟨c, hc, hcm, hce⟩ | ⟨v, hv, hvm, hvt, hve⟩
    · have htype : out.type = "review_comment" := by
        rw [← hce]; rfl
      have hrep' : rep ∈ repliesFor data.reviewComments c.id := by
        rw [← hce] at hrep
        simpa [reviewCommentEntity] using hrep
      rw [mem_repliesFor] at hrep'
      obtain ⟨src, hsrc, hstru, hsrcp, hsrce⟩ := hrep'
      exact ⟨htype, c, hc, hcn, hcm, by rw [← hce]; rfl, src, hsrc, hsrcp, hsrce⟩
    · rw [← hce] at hrep
      simp [issueCommentEntity] at hrep
    · rw [← hve] at hrep
      simp [reviewEntity] at hrep
  · intro data mf r2 r1 p1 hr2 hp htru2 hr1 hup1 htru1 huniqR huniqI huniqV
    have hpnz : p1 ≠ 0 := by
      rw [hp] at htru2
      simpa [jsTruthyNat] using htru2
    refine reply_dropped_core data mf r2 p1 hp hpnz ?_ huniqR huniqI huniqV
    intro c hc hcn _ hcid
    have hcr : c = r1 := hup1 c hc hcid
    rw [hcr] at hcn
    rw [htru1] at hcn
    exact absurd hcn (by simp)
  · intro data mf r2 r1 p1 hr2 hp htru2 hr1 hup1 hmeta huniqR huniqI huniqV
    have hpnz : p1 ≠ 0 := by
      rw [hp] at htru2
      simpa [jsTruthyNat] using htru2
    refine reply_dropped_core data mf r2 p1 hp hpnz ?_ huniqR huniqI huniqV
    intro c hc _ hcm hcid
    have hcr : c = r1 := hup1 c hc hcid
    rw [hcr] at hcm
    rw [hmeta] at hcm
    exact absurd hcm (by simp)
  · intro data mf r1 hr1 hside huniqR huniqI huniqV out hout hid
    rw [mem_processComments] at hout
    rcases hout with ⟨c, hc, hcn, hcm, hce⟩ | ⟨c, hc, hcm, hce⟩ | ⟨v, hv, hvm, hvt, hve⟩
    · have hcid : c.id = r1.id := by
        rw [← hce] at hid
        simpa [reviewCommentEntity] using hid
      have hcr : c = r1 := huniqR c hc hcid
      rcases hside with h | h
      · rw [hcr, h] at hcn
        exact absurd hcn (by simp)
      · rw [hcr, h] at hcm
        exact absurd hcm (by simp)
    · have : c.id = r1.id := by
        rw [← hce] at hid
        simpa [issueCommentEntity] using hid
      exact huniqI c hc this
    · have : v.id = r1.id := by
        rw [← hve] at hid
        simpa [reviewEntity] using hid
      exact huniqV v hv this

/-- C10, witness: in the chain root(1) ← reply(2) ← reply(3), the one
emitted entity (the root) does not carry the reply-to-a-reply's id 3,
holds no reply with id 3, and does not carry the reply-parent's id 2
(that parent is not emitted top-level). -/
theorem replies_attached_to_emitted_roots_witness :
    ((reviewCommentEntity chainData.reviewComments (inlineAt 1 "ann" 10)).id ≠ 3
    ∧ ∀ rep ∈ (reviewCommentEntity chainData.reviewComments (inlineAt 1 "ann" 10)).replies,
        rep.id ≠ 3)
    ∧ (reviewCommentEntity chainData.reviewComments (inlineAt 1 "ann" 10)).id ≠ 2 :=
  ⟨replies_attached_to_emitted_roots.2.1 chainData DEFAULT_META_FILTERS
      (replyAt 3 2 "cam" 12) (replyAt 2 1 "bea" 11) 2
      (by decide) (by decide) (by decide) (by decide) (by decide)
      (by decide) (by decide) (by decide) (by decide)
      (reviewCommentEntity chainData.reviewComments (inlineAt 1 "ann" 10)) (by decide),
    replies_attached_to_emitted_roots.2.2.2 chainData DEFAULT_META_FILTERS
      (replyAt 2 1 "bea" 11)
      (by decide) (Or.inl (by decide)) (by decide) (by decide) (by decide)
      (reviewCommentEntity chainData.reviewComments (inlineAt 1 "ann" 10)) (by decide)⟩

/-! ### C8: review verdict resolution -/

/-- C8.  (1) Every emitted inline-code-comment or general-comment entity
has `isResolved = false`.  (2) A review that is not meta and has written
content is emitted, with `isResolved` true exactly when its state is
`"APPROVED"` or `"DISMISSED"` (the source compares the upper-case API
state values).  (3) A review that is meta or has an empty/whitespace-only
body is skipped: no review-typed output carries its id (given the spec's
id-uniqueness invariant). -/
theorem review_resolution :
    (∀ (data : CommentData) (mf : List (String → String → Bool))
        (out : ProcessedComment), out ∈ processComments data mf →
        out.type = "review_comment" ∨ out.type = "issue_comment" →
        out.isResolved = false)
    ∧ (∀ (data : CommentData) (mf : List (String → String → Bool))
        (v : Review), v ∈ data.reviews →
        isMetaComment v.user v.body mf = false → ¬ jsTrim v.body = "" →
        reviewEntity v ∈ processComments data mf
          ∧ ((reviewEntity v).isResolved = true ↔
              v.state = "APPROVED" ∨ v.state = "DISMISSED"))
    ∧ (∀ (data : CommentData) (mf : List (String → String → Bool))
        (v : Review), v ∈ data.reviews →
        (isMetaComment v.user v.body mf = true ∨ jsTrim v.body = "") →
        (∀ w ∈ data.reviews, w.id = v.id → w = v) →
        ∀ out ∈ processComments data mf, out.type = "review" → out.id ≠ v.id) := by
  refine ⟨?_, ?_, ?_⟩
  · intro data mf out hout htype
    rw [mem_processComments] at hout
    rcases hout with ⟨c, hc, hcn, hcm, hce⟩ | ⟨c, hc, hcm, hce⟩ | ⟨v, hv, hvm, hvt, hve⟩
    · rw [← hce]; rfl
    · rw [← hce]; rfl
    · rw [← hve] at htype
      rcases htype with h | h <;> simp [reviewEntity] at h
  · intro data mf v hv hm ht
    refine ⟨(mem_processComments data mf _).mpr (Or.inr (Or.inr ⟨v, hv, hm, ht, rfl⟩)), ?_⟩
    simp [reviewEntity]
  · intro data mf v hv hskip huniq out hout htype hid
    rw [mem_processComments] at hout
    rcases hout with ⟨c, hc, hcn, hcm, hce⟩ | ⟨c, hc, hcm, hce⟩ | ⟨w, hw, hwm, hwt, hwe⟩
    · rw [← hce] at htype
      simp [reviewCommentEntity] at htype
    · rw [← hce] at htype
      simp [issueCommentEntity] at htype
    · have hwid : w.id = v.id := by
        rw [← hwe] at hid
        simpa [reviewEntity] using hid
      have hwv : w = v := huniq w hw hwid
      rw [hwv] at hwm hwt
      rcases hskip with h | h
      · rw [h] at hwm; exact absurd hwm (by simp)
      · exact hwt h

/-! ### C2: watch loop detection -/

theorem mem_addSeen_mono (seen : List Nat) (x i : Nat) (h : i ∈ seen) :
    i ∈ addSeen seen x := by
  unfold addSeen
  by_cases hx : x ∈ seen <;> simp [hx, h]

theorem mem_addSeen_self (seen : List Nat) (x : Nat) : x ∈ addSeen seen x := by
  unfold addSeen
  by_cases hx : x ∈ seen <;> simp [hx]

theorem mem_addAllSeen_mono :
    ∀ (cs : List ProcessedComment) (seen : List Nat) (i : Nat),
      i ∈ seen → i ∈ addAllSeen seen cs := by
  intro cs
  induction cs with
  | nil => intro seen i h; exact h
  | cons c cs ih =>
    intro seen i h
    exact ih (addSeen seen c.id) i (mem_addSeen_mono seen c.id i h)

theorem mem_addAllSeen_of_mem :
    ∀ (cs : List ProcessedComment) (seen : List Nat) (c : ProcessedComment),
      c ∈ cs → c.id ∈ addAllSeen seen cs := by
  intro cs
  induction cs with
  | nil => intro seen c h; simp at h
  | cons d cs ih =>
    intro seen c h
    rcases List.mem_cons.mp h with h1 | h2
    · subst h1
      exact mem_addAllSeen_mono cs (addSeen seen c.id) c.id (mem_addSeen_self seen c.id)
    · exact ih (addSeen seen d.id) c h2

theorem watchLoopGo_detect (env : WatchEnv) (opts : WatchOptions)
    (seen0 : List Nat) (k : Nat) :
    ∀ (fuel m : Nat), m < k → k ≤ m + fuel →
      (∀ j, m < j → j < k → newAt env opts j seen0 = []) →
      (∀ j, m < j → j < k → j * opts.watchInterval < opts.watchTimeout) →
      newAt env opts k seen0 ≠ [] →
      watchLoopGo env opts fuel seen0 m
        = (List.replicate (k - m) opts.watchInterval ++ [5],
            some (.newComments
              (newAt env opts k seen0 ++ lateAt env opts k seen0)
              (addAllSeen (addAllSeen seen0 (newAt env opts k seen0))
                (lateAt env opts k seen0)))) := by
  intro fuel
  induction fuel with
  | zero => intro m hmk hkf _ _ _; omega
  | succ fuel ih =>
    intro m hmk hkf hquiet hnt hdet
    by_cases hpc : m + 1 = k
    · subst hpc
      have hne : (newAt env opts (m + 1) seen0).isEmpty = false := by
        cases hh : newAt env opts (m + 1) seen0 with
        | nil => exact absurd hh hdet
        | cons a l => simp
      simp only [watchLoopGo, hne, Bool.false_eq_true, if_false]
      rw [show m + 1 - m = 1 from by omega]
      rfl
    · have hmk1 : m + 1 < k := by omega
      have hq : newAt env opts (m + 1) seen0 = [] :=
        hquiet (m + 1) (by omega) hmk1
      have hqe : (newAt env opts (m + 1) seen0).isEmpty = true := by
        rw [hq]; rfl
      have htime : ¬ (opts.watchTimeout ≤ (m + 1) * opts.watchInterval) := by
        have := hnt (m + 1) (by omega) hmk1
        omega
      simp only [watchLoopGo, hqe, if_true, if_neg htime]
      rw [ih (m + 1) hmk1 (by omega)
        (fun j hj1 hj2 => hquiet j (by omega) hj2)
        (fun j hj1 hj2 => hnt j (by omega) hj2) hdet]
      rw [show k - m = (k - (m + 1)) + 1 from by omega]
      simp [List.replicate_succ]

/-- C2.  If polls `1 .. k-1` surface nothing unseen (relative to the
primed seen set, which quiet polls leave unchanged) and none of them
reaches the idle timeout, and poll `k` surfaces at least one filtered
comment id not in the seen set, then the watch loop: performs the grace
re-fetch exactly once, after the fixed 5-second grace sleep (the sleep
log is `k` interval-sleeps followed by exactly one `5`, and nothing
after it — so polling never resumes after the detection); merges every
additional unseen id from the grace pass into the report; reports
exactly the first-pass detections followed by the grace stragglers;
marks all newly-seen ids from both passes as seen; and terminates with
that report. -/
theorem watch_detection_terminates (env : WatchEnv) (opts : WatchOptions)
    (fuel k : Nat) (hk : 1 ≤ k) (hfuel : k ≤ fuel)
    (hquiet : ∀ j, 1 ≤ j → j < k → newAt env opts j (primingSeen env opts) = [])
    (hnt : ∀ j, 1 ≤ j → j < k → j * opts.watchInterval < opts.watchTimeout)
    (hdet : newAt env opts k (primingSeen env opts) ≠ []) :
    watchForComments env opts fuel
      = (List.replicate k opts.watchInterval ++ [5],
          some (.newComments
            (newAt env opts k (primingSeen env opts)
              ++ lateAt env opts k (primingSeen env opts))
            (addAllSeen
              (addAllSeen (primingSeen env opts)
                (newAt env opts k (primingSeen env opts)))
              (lateAt env opts k (primingSeen env opts)))))
    ∧ ∀ c ∈ newAt env opts k (primingSeen env opts)
          ++ lateAt env opts k (primingSeen env opts),
        c.id ∈ addAllSeen
          (addAllSeen (primingSeen env opts)
            (newAt env opts k (primingSeen env opts)))
          (lateAt env opts k (primingSeen env opts)) := by
  constructor
  · unfold watchForComments
    rw [watchLoopGo_detect env opts (primingSeen env opts) k fuel 0 (by omega)
      (by omega) (fun j hj1 hj2 => hquiet j hj1 hj2)
      (fun j hj1 hj2 => hnt j hj1 hj2) hdet]
    rw [show k - 0 = k from by omega]
  · intro c hc
    rcases List.mem_append.mp hc with h1 | h2
    · exact mem_addAllSeen_mono _ _ _ (mem_addAllSeen_of_mem _ _ _ h1)
    · exact mem_addAllSeen_of_mem _ _ _ h2

/-- C2, witness: priming sees nothing, poll 1 surfaces comment id 10,
the single grace re-fetch additionally surfaces id 11; the loop sleeps
`[1, 5]`, reports both entities, and terminates. -/
theorem watch_detection_terminates_witness :
    watchForComments watchEnvOne watchOptsOne 2
      = (List.replicate 1 watchOptsOne.watchInterval ++ [5],
          some (.newComments
            (newAt watchEnvOne watchOptsOne 1 (primingSeen watchEnvOne watchOptsOne)
              ++ lateAt watchEnvOne watchOptsOne 1 (primingSeen watchEnvOne watchOptsOne))
            (addAllSeen
              (addAllSeen (primingSeen watchEnvOne watchOptsOne)
                (newAt watchEnvOne watchOptsOne 1 (primingSeen watchEnvOne watchOptsOne)))
              (lateAt watchEnvOne watchOptsOne 1
                (primingSeen watchEnvOne watchOptsOne))))) :=
  (watch_detection_terminates watchEnvOne watchOptsOne 2 1 le_rfl (by omega)
    (fun j hj1 hj2 => absurd (Nat.lt_of_le_of_lt hj1 hj2) (by omega))
    (fun j hj1 hj2 => absurd (Nat.lt_of_le_of_lt hj1 hj2) (by omega))
    (by decide)).1

/-- C8, witness: an approved review with body text is emitted resolved;
the whitespace-only verdict (id 8) yields no review-typed output. -/
theorem review_resolution_witness :
    (reviewEntity sampleReview ∈ processComments reviewData DEFAULT_META_FILTERS
      ∧ ((reviewEntity sampleReview).isResolved = true ↔
          sampleReview.state = "APPROVED" ∨ sampleReview.state = "DISMISSED"))
    ∧ ∀ out ∈ processComments reviewData DEFAULT_META_FILTERS,
        out.type = "review" → out.id ≠ 8 :=
  ⟨review_resolution.2.1 reviewData DEFAULT_META_FILTERS sampleReview
      (by decide) (by decide) (by decide),
    review_resolution.2.2 reviewData DEFAULT_META_FILTERS
      ⟨8, "eve", "  ", "CHANGES_REQUESTED", 21, "url"⟩
      (by decide) (Or.inr (by decide)) (by decide)⟩

end AgentReviews
